import Mathlib

/-!
Shallow embedding of the `TransferLogic` migration engine
(`fast_transfer`, single-file Python program).  The definitions below are
translated from the Python source: the planner (`_scan_and_plan`), the
session store (`_load_session`, `_plan_recovery_tasks`), the progress
aggregator (`_update_progress`), the completion callbacks, the archiver
supervisor (`_run_command_with_retry`) and the filelist writer inside
`_process_main_task`.  Machine integers are modelled as `Nat`; Python's
float division is modelled as exact division in `ℚ`; fallible operations
carry explicit outcome values.
-/

namespace FastTransfer

/-- A scanned file: `{'path': path, 'size': size}` built in `_scan_and_plan`. -/
structure FileEntry where
  path : String
  size : Nat
deriving DecidableEq, Repr

/-- A task of the plan.  Python represents tasks as dicts with a `type` key
(`pack`, `move_large`, `resume_extract`), a `task_id`, for packs a `pack_id`
and `files` list, for moves a `file_info`. -/
inductive Task where
  | pack (taskId : String) (packId : Nat) (files : List FileEntry)
  | moveLarge (taskId : String) (file : FileEntry)
  | resumeExtract (taskId : String) (packId : Nat) (files : List FileEntry)
deriving DecidableEq, Repr

/-- `task['task_id']`. -/
def Task.taskId : Task → String
  | .pack t _ _ => t
  | .moveLarge t _ => t
  | .resumeExtract t _ _ => t

/-- The byte size a task is credited with in `_update_progress`:
packs and resume-extracts sum their files, `move_large` uses
`file_info['size']`. -/
def Task.size : Task → Nat
  | .pack _ _ fs => (fs.map FileEntry.size).sum
  | .moveLarge _ f => f.size
  | .resumeExtract _ _ fs => (fs.map FileEntry.size).sum

/-- The byte size `_load_session` folds into `processed_size` for a completed
stored task: the branch ladder there checks `type == 'pack'` then
`type == 'move_large'` and credits nothing for any other type. -/
def Task.loadCreditSize : Task → Nat
  | .pack _ _ fs => (fs.map FileEntry.size).sum
  | .moveLarge _ f => f.size
  | .resumeExtract _ _ _ => 0

/-- `task['type'] == 'resume_extract'`. -/
def Task.isResumeExtract : Task → Bool
  | .resumeExtract _ _ _ => true
  | _ => false

/-! ## Planner (`_scan_and_plan`): dynamic large-file threshold -/

/-- One mebibyte. -/
def MiB : Nat := 1024 * 1024

/-- `avg_size = self.total_transfer_size / len(all_files)` followed by
`min(avg*10, 256MiB)` then `max(·, 16MiB)`.  Python float division is
modelled exactly in `ℚ`. -/
def largeFileThreshold (files : List FileEntry) : ℚ :=
  let avg : ℚ := ((files.map FileEntry.size).sum : ℚ) / (files.length : ℚ)
  max (min (avg * 10) ((256 * MiB : Nat) : ℚ)) ((16 * MiB : Nat) : ℚ)

/-- The classification loop of `_scan_and_plan`: files with
`size >= large_file_threshold` become `move_large` tasks, the rest are
collected into `small_files_to_pack`.  Returns (large files, small files)
in scan order. -/
def scanClassify (files : List FileEntry) : List FileEntry × List FileEntry :=
  files.foldl
    (fun acc f =>
      if largeFileThreshold files ≤ (f.size : ℚ) then (acc.1 ++ [f], acc.2)
      else (acc.1, acc.2 ++ [f]))
    ([], [])

/-! ## Planner (`_scan_and_plan`): balanced chunking of small files -/

/-- `ideal_files_per_pack`: ceiling division `(len + W - 1) // W` when
`self.max_workers > 0 and small_files_to_pack`, otherwise the configured
`chunk_file_limit`.  `maxWorkers` is an `Int` since Python permits any int. -/
def idealFilesPerPack (maxWorkers : Int) (chunkFileLimit : Nat)
    (smalls : List FileEntry) : Nat :=
  if 0 < maxWorkers ∧ smalls ≠ [] then
    (smalls.length + maxWorkers.toNat - 1) / maxWorkers.toNat
  else chunkFileLimit

/-- State of the chunking loop: sealed packs as `(pack_id, files)` pairs,
the current chunk, its byte size, and `pack_id_counter`. -/
structure PackPlanState where
  packs : List (Nat × List FileEntry)
  cur : List FileEntry
  curSize : Nat
  counter : Nat
deriving Repr

/-- One iteration of the chunking loop: seal the current chunk when it is
non-empty and either already holds `ideal` files or appending `f` would
push its byte total over `limit`; then append `f` to the (possibly fresh)
current chunk. -/
def packStep (ideal limit : Nat) (st : PackPlanState) (f : FileEntry) :
    PackPlanState :=
  if st.cur ≠ [] ∧ (ideal ≤ st.cur.length ∨ limit < st.curSize + f.size) then
    { packs := st.packs ++ [(st.counter + 1, st.cur)]
      cur := [f], curSize := f.size, counter := st.counter + 1 }
  else
    { st with cur := st.cur ++ [f], curSize := st.curSize + f.size }

/-- The chunking loop of `_scan_and_plan` over the shuffled small-file list,
including the final `if current_chunk:` flush.  Produces the pack tasks as
`(pack_id, files)` pairs in emission order. -/
def planPacks (ideal limit : Nat) (smalls : List FileEntry) :
    List (Nat × List FileEntry) :=
  let st := smalls.foldl (packStep ideal limit) ⟨[], [], 0, 0⟩
  if st.cur ≠ [] then st.packs ++ [(st.counter + 1, st.cur)] else st.packs

/-! ## Session store: `_load_session` -/

/-- The parsed content of `transfer_session.json` as written by
`_save_session` / `_write_session_to_disk`. -/
structure Session where
  sourceDir : String
  targetDir : String
  totalTransferSize : Nat
  taskPlan : List Task
  completedTaskIds : List String
deriving Repr

/-- The in-memory state `_load_session` leaves behind on success. -/
structure LoadResult where
  totalTransferSize : Nat
  processedSize : Nat
  taskPlan : List Task
deriving Repr

/-- `_load_session` on a parseable session file: reject (return `none`,
Python `False`) when the stored `source_dir` or `target_dir` differs from
the caller's; otherwise fold the stored plan, crediting completed tasks'
bytes to `processed_size` and collecting incomplete tasks into the active
plan. -/
def loadSession (cfgSource cfgTarget : String) (s : Session) :
    Option LoadResult :=
  if s.sourceDir ≠ cfgSource ∨ s.targetDir ≠ cfgTarget then none
  else
    let st := s.taskPlan.foldl
      (fun (acc : Nat × List Task) t =>
        if t.taskId ∈ s.completedTaskIds then (acc.1 + t.loadCreditSize, acc.2)
        else (acc.1, acc.2 ++ [t]))
      (0, [])
    some ⟨s.totalTransferSize, st.1, st.2⟩

/-! ## Session store: `_plan_recovery_tasks` and submission order -/

/-- `recovery_task = original_task.copy(); recovery_task['type'] =
'resume_extract'`: only the `type` field changes. -/
def Task.toResumeExtract : Task → Task
  | .pack t p fs => .resumeExtract t p fs
  | t => t

/-- The dict comprehension
`{t['pack_id']: t for t in full_task_plan if t['type'] == 'pack'}`:
a later pack with the same `pack_id` overwrites an earlier one. -/
def packIdToTask (fullPlan : List Task) (pid : Nat) : Option Task :=
  fullPlan.foldl
    (fun acc t =>
      match t with
      | .pack _ p _ => if p = pid then some t else acc
      | _ => acc)
    none

/-- One iteration of the cache-directory scan in `_plan_recovery_tasks`.
A cache entry is `some pid` when the listed name matched
`pack_<pid>.7z` with a parseable id, `none` otherwise (skipped).  When the
mapped original pack task exists and is not completed, it is converted to a
`resume_extract` appended to the recovery list and filtered out of the
active plan by `task_id`. -/
def recoveryStep (fullPlan : List Task) (completed : List String)
    (st : List Task × List Task) : Option Nat → List Task × List Task
  | none => st
  | some pid =>
    match packIdToTask fullPlan pid with
    | none => st
    | some orig =>
      if orig.taskId ∈ completed then st
      else
        (st.1 ++ [orig.toResumeExtract],
         st.2.filter (fun t => t.taskId ≠ orig.taskId))

/-- `_plan_recovery_tasks`: fold the cache listing, starting from an empty
recovery list and the loaded active plan.  Returns
`(recovery_tasks, task_plan)`. -/
def planRecoveryTasks (fullPlan : List Task) (completed : List String)
    (cacheEntries : List (Option Nat)) (activePlan : List Task) :
    List Task × List Task :=
  cacheEntries.foldl (recoveryStep fullPlan completed) ([], activePlan)

/-- `_execute_plan` submission order: every task of `recovery_tasks` is
submitted to the transfer pool, then every task of `task_plan`. -/
def executionOrder (recoveryTasks taskPlan : List Task) : List Task :=
  recoveryTasks ++ taskPlan

/-! ## Progress aggregator: `_update_progress` -/

/-- Outcome of one `_update_progress` call.  `processedSize` is updated
before the division (`self.processed_size += task_size` precedes the
percentage computation), so it advances even when the division raises.
`emitted` lists the percentage values passed to the status callback by this
call; `raised` records a `ZeroDivisionError` escaping the call. -/
structure ProgressResult where
  processedSize : Nat
  lastReported : Int
  emitted : List ℚ
  raised : Bool
deriving Repr

/-- `_update_progress(task, failed)` with `task_size` already extracted:
add the size, compute `processed / total * 100` (raising when `total`
is zero), then either report unconditionally (failed path) or only when the
truncated percentage strictly advances. -/
def updateProgress (total processed : Nat) (lastReported : Int)
    (taskSize : Nat) (failed : Bool) : ProgressResult :=
  let p := processed + taskSize
  if total = 0 then ⟨p, lastReported, [], true⟩
  else
    let progress : ℚ := (p : ℚ) / (total : ℚ) * 100
    if failed then ⟨p, lastReported, [progress], false⟩
    else if lastReported < ⌊progress⌋ then ⟨p, ⌊progress⌋, [progress], false⟩
    else ⟨p, lastReported, [], false⟩

/-- A sequence of progress credits within one run: fold `_update_progress`
over `(task, failed)` pairs, concatenating the emitted percentages. -/
def runProgress (total : Nat) (credits : List (Task × Bool))
    (processed : Nat) (lastReported : Int) : ProgressResult :=
  match credits with
  | [] => ⟨processed, lastReported, [], false⟩
  | (t, failed) :: rest =>
    let r := updateProgress total processed lastReported t.size failed
    let r2 := runProgress total rest r.processedSize r.lastReported
    ⟨r2.processedSize, r2.lastReported, r.emitted ++ r2.emitted,
     r.raised || r2.raised⟩

/-! ## Completion callbacks -/

/-- The engine state a completion callback touches: the progress counter
and throttle, the failure flag, the queue fed by `_mark_task_complete`,
the percentages emitted so far, and the stop event. -/
structure CbState where
  processedSize : Nat
  lastReported : Int
  transferFailed : Bool
  completedQueue : List String
  emitted : List ℚ
  stopSet : Bool
deriving Repr

/-- The success tail of a callback `try` block:
`_mark_task_complete(task)` then `_update_progress(task)`.  When the update
raises (`total == 0`), control lands in the callback's `except` clause,
which sets `_transfer_failed` and calls `_update_progress(task, failed=True)`
— which credits the size a second time and raises again, escaping the
callback. -/
def successCredit (total : Nat) (st : CbState) (t : Task) : CbState :=
  let st1 := { st with completedQueue := st.completedQueue ++ [t.taskId] }
  let r := updateProgress total st1.processedSize st1.lastReported t.size false
  if r.raised then
    let r2 := updateProgress total r.processedSize r.lastReported t.size true
    { st1 with processedSize := r2.processedSize
               lastReported := r2.lastReported
               emitted := st1.emitted ++ r.emitted ++ r2.emitted
               transferFailed := true }
  else
    { st1 with processedSize := r.processedSize
               lastReported := r.lastReported
               emitted := st1.emitted ++ r.emitted }

/-- The `except` clause shared by the callbacks: set `_transfer_failed`,
log, and call `_update_progress(task, failed=True)`.  The task id is not
enqueued. -/
def failCredit (total : Nat) (st : CbState) (t : Task) : CbState :=
  let r := updateProgress total st.processedSize st.lastReported t.size true
  { st with processedSize := r.processedSize
            lastReported := r.lastReported
            emitted := st.emitted ++ r.emitted
            transferFailed := true }

/-- What `_process_main_task` returned on success: a pack result carrying a
delete future (or not, in copy-only mode), or a large-move result carrying
source files for directory cleanup (or not, in copy-only mode). -/
inductive MainOutcome where
  | packCleanup (hasDeleteFuture : Bool)
  | largeCleanup (hasSourceFiles : Bool)
deriving DecidableEq, Repr

/-- `_main_task_done_callback`: on a pack result it only chains further
callbacks (state changes happen there); on a large result without source
files it marks the task complete and credits progress; on an exception from
the main phase it runs the `except` clause. -/
def mainTaskDoneCallback (total : Nat) (st : CbState) (t : Task)
    (result : Except String MainOutcome) : CbState :=
  match result with
  | .ok (.packCleanup _) => st
  | .ok (.largeCleanup true) => st
  | .ok (.largeCleanup false) => successCredit total st t
  | .error _ => failCredit total st t

/-- `_final_cleanup_callback`: `outcome` is the combined result of
`delete_future.result()`, the cache-file removal and the empty-directory
reclamation inside its `try` block. -/
def finalCleanupCallback (total : Nat) (st : CbState) (t : Task)
    (outcome : Except String Unit) : CbState :=
  match outcome with
  | .ok _ => successCredit total st t
  | .error _ => failCredit total st t

/-- `_cleanup_task_done_callback`: same shape, `outcome` is
`future.result()` of the simple cleanup task. -/
def cleanupTaskDoneCallback (total : Nat) (st : CbState) (t : Task)
    (outcome : Except String Unit) : CbState :=
  match outcome with
  | .ok _ => successCredit total st t
  | .error _ => failCredit total st t

/-- The guard in `run()`'s `finally` block: teardown (cache removal, source
removal, symlink) runs only when the stop event is unset and no transfer
failure was recorded. -/
def teardownRuns (stopSet transferFailed : Bool) : Bool :=
  !stopSet && !transferFailed

/-- The heartbeat loop of `_execute_plan` cancels the pending futures iff
the stop event is set; a task failure alone never cancels siblings. -/
def pendingFuturesCancelled (stopSet : Bool) : Bool := stopSet

/-! ## Archiver supervisor: `_run_command_with_retry` -/

/-- Behavior of one spawned child: it either exceeds the per-attempt
timeout or exits with a code. -/
inductive CmdOutcome where
  | timeout
  | exit (code : Int)
deriving DecidableEq, Repr

/-- How `_run_command_with_retry` ends.  `cancelled`, `success` and
`fellThrough` are all Python `return` / `return None`; the constructor
records which control path produced the return.  The two `Raised` forms are
the exceptions `subprocess.TimeoutExpired` and
`subprocess.CalledProcessError` escaping the call. -/
inductive CmdResult where
  | cancelled
  | success
  | fellThrough
  | timeoutRaised
  | nonZeroRaised (code : Int)
deriving DecidableEq, Repr

/-- Observable trace of one call: how it ended, how many children were
spawned, how many `process.kill()` calls the timeout handler made. -/
structure CmdRun where
  result : CmdResult
  attempts : Nat
  kills : Nat
deriving DecidableEq, Repr

/-- The `for i in range(retries)` loop of `_run_command_with_retry`.
`stop c` is the value of `self._stop_event.is_set()` at the `c`-th
observation; iteration `i` observes the flag at index `2*i` (top of the
loop body) and `2*i + 1` (after `communicate`, or inside the timeout
handler after killing the child).  `outcome i` is the `i`-th child's
behavior.  `fuel` is the number of loop iterations remaining
(`fuel + i = retries` at every call). -/
def runCmdAux (stop : Nat → Bool) (outcome : Nat → CmdOutcome)
    (retries : Nat) : Nat → Nat → Nat → Nat → CmdRun
  | 0, _, att, kills => ⟨.fellThrough, att, kills⟩
  | fuel + 1, i, att, kills =>
    if stop (2 * i) then ⟨.cancelled, att, kills⟩
    else
      match outcome i with
      | .timeout =>
        if stop (2 * i + 1) then ⟨.cancelled, att + 1, kills + 1⟩
        else if i = retries - 1 then ⟨.timeoutRaised, att + 1, kills + 1⟩
        else runCmdAux stop outcome retries fuel (i + 1) (att + 1) (kills + 1)
      | .exit code =>
        if stop (2 * i + 1) then ⟨.cancelled, att + 1, kills⟩
        else if code ≠ 0 then ⟨.nonZeroRaised code, att + 1, kills⟩
        else ⟨.success, att + 1, kills⟩

/-- `_run_command_with_retry(cmd, cwd, retries)`. -/
def runCommandWithRetry (stop : Nat → Bool) (outcome : Nat → CmdOutcome)
    (retries : Nat) : CmdRun :=
  runCmdAux stop outcome retries retries 0 0 0

/-! ## Filelist emission inside `_process_main_task` -/

/-- A file written by the engine, with the encoding named in `open(...)`. -/
structure WrittenFile where
  encoding : String
  content : List Char
deriving Repr

/-- The filelist write of the pack phase:
`open(file_list_path, 'w', encoding='utf-8')` then, for each pack file,
`f.write(relative_path + "\n")` where
`relative_path = os.path.relpath(file_info['path'], self.source_dir)`.
`relpath` abstracts `os.path.relpath(·, source_dir)`. -/
def writeFilelist (relpath : String → String) (files : List FileEntry) :
    WrittenFile :=
  ⟨"utf-8", (files.map (fun f => (relpath f.path).data ++ ['\n'])).flatten⟩

/-- Split a character stream at LF separators (each LF terminates a line;
the final element is what follows the last LF). -/
def splitLinesLF : List Char → List (List Char)
  | [] => [[]]
  | c :: rest =>
    if c = '\n' then [] :: splitLinesLF rest
    else
      match splitLinesLF rest with
      | [] => [[c]]
      | l :: ls => (c :: l) :: ls

/-! ## Helper lemmas -/

/-- Tasks that are not `resume_extract` are credited their full byte size by
`_load_session`. -/
lemma loadCreditSize_eq_size (t : Task) (h : t.isResumeExtract = false) :
    t.loadCreditSize = t.size := by
  cases t with
  | pack _ _ _ => rfl
  | moveLarge _ _ => rfl
  | resumeExtract _ _ _ => simp [Task.isResumeExtract] at h

/-- The accumulator fold of `_load_session` splits into the completed-size
sum and the incomplete-task filter. -/
lemma loadSession_fold (completed : List String) (plan : List Task)
    (p0 : Nat) (acc : List Task) :
    plan.foldl
      (fun (a : Nat × List Task) t =>
        if t.taskId ∈ completed then (a.1 + t.loadCreditSize, a.2)
        else (a.1, a.2 ++ [t]))
      (p0, acc) =
    (p0 + ((plan.filter (fun t => decide (t.taskId ∈ completed))).map
        Task.loadCreditSize).sum,
     acc ++ plan.filter (fun t => decide (t.taskId ∉ completed))) := by
  induction plan generalizing p0 acc with
  | nil => simp
  | cons t rest ih =>
    by_cases h : t.taskId ∈ completed
    · simp [h, ih, Nat.add_assoc]
    · simp [h, ih]

/-- The classification fold of `_scan_and_plan` splits into the two
filters. -/
lemma scanClassify_fold (P : FileEntry → Prop) [DecidablePred P]
    (l : List FileEntry) (acc1 acc2 : List FileEntry) :
    l.foldl
      (fun (acc : List FileEntry × List FileEntry) f =>
        if P f then (acc.1 ++ [f], acc.2) else (acc.1, acc.2 ++ [f]))
      (acc1, acc2) =
    (acc1 ++ l.filter (fun f => decide (P f)),
     acc2 ++ l.filter (fun f => decide (¬ P f))) := by
  induction l generalizing acc1 acc2 with
  | nil => simp
  | cons f rest ih =>
    by_cases h : P f
    · simp [h, ih]
    · simp [h, ih]

/-! ## C1: session load on resume -/

/-- C1.  On resume with a parseable session file: a stored `source_dir` or
`target_dir` differing from the caller's rejects the load (fresh run);
otherwise every stored task whose id is in `completed_task_ids` is left out
of the active plan and its byte size is folded into `processed_size`, and
every other stored task enters the active plan. -/
theorem C1_load_session (cfgS cfgT : String) (s : Session)
    (hstored : ∀ t ∈ s.taskPlan, t.isResumeExtract = false) :
    ((s.sourceDir ≠ cfgS ∨ s.targetDir ≠ cfgT) →
      loadSession cfgS cfgT s = none) ∧
    (s.sourceDir = cfgS → s.targetDir = cfgT →
      ∃ r, loadSession cfgS cfgT s = some r ∧
        r.taskPlan =
          s.taskPlan.filter (fun t => decide (t.taskId ∉ s.completedTaskIds)) ∧
        r.processedSize =
          ((s.taskPlan.filter
              (fun t => decide (t.taskId ∈ s.completedTaskIds))).map
            Task.size).sum ∧
        (∀ t ∈ s.taskPlan, t.taskId ∈ s.completedTaskIds → t ∉ r.taskPlan) ∧
        (∀ t ∈ s.taskPlan, t.taskId ∉ s.completedTaskIds → t ∈ r.taskPlan)) := by
  constructor
  · intro hmis
    simp only [loadSession, if_pos hmis]
  · intro hs ht
    have hmat : ¬ (s.sourceDir ≠ cfgS ∨ s.targetDir ≠ cfgT) := by
      push_neg
      exact ⟨hs, ht⟩
    have hload : loadSession cfgS cfgT s = some
        ⟨s.totalTransferSize,
        ((s.taskPlan.filter
            (fun t => decide (t.taskId ∈ s.completedTaskIds))).map
          Task.loadCreditSize).sum,
        s.taskPlan.filter (fun t => decide (t.taskId ∉ s.completedTaskIds))⟩ := by
      simp [loadSession, if_neg hmat, loadSession_fold]
    refine ⟨_, hload, rfl, ?_, ?_, ?_⟩
    · have : ∀ u ∈ s.taskPlan.filter
          (fun t => decide (t.taskId ∈ s.completedTaskIds)),
          u.loadCreditSize = u.size := by
        intro u hu
        exact loadCreditSize_eq_size u (hstored u (List.mem_of_mem_filter hu))
      simp [List.map_congr_left this]
    · intro t htp hc
      simp only [List.mem_filter]
      intro hmem
      simp at hmem
      exact hmem.2 hc
    · intro t htp hc
      simp only [List.mem_filter]
      exact ⟨htp, by simpa using hc⟩

/-- A concrete stored session used by the C1 witness: one completed pack
and one incomplete large move. -/
def c1Sess : Session :=
  { sourceDir := "S", targetDir := "T", totalTransferSize := 12,
    taskPlan := [Task.pack "a" 1 [⟨"f1", 5⟩], Task.moveLarge "b" ⟨"f2", 7⟩],
    completedTaskIds := ["a"] }

/-- Witness for C1 at `c1Sess`. -/
theorem C1_load_session_witness :
    (∀ t ∈ c1Sess.taskPlan, t.isResumeExtract = false) ∧
    (((c1Sess.sourceDir ≠ "S" ∨ c1Sess.targetDir ≠ "T") →
        loadSession "S" "T" c1Sess = none) ∧
      (c1Sess.sourceDir = "S" → c1Sess.targetDir = "T" →
        ∃ r, loadSession "S" "T" c1Sess = some r ∧
          r.taskPlan =
            c1Sess.taskPlan.filter
              (fun t => decide (t.taskId ∉ c1Sess.completedTaskIds)) ∧
          r.processedSize =
            ((c1Sess.taskPlan.filter
                (fun t => decide (t.taskId ∈ c1Sess.completedTaskIds))).map
              Task.size).sum ∧
          (∀ t ∈ c1Sess.taskPlan,
            t.taskId ∈ c1Sess.completedTaskIds → t ∉ r.taskPlan) ∧
          (∀ t ∈ c1Sess.taskPlan,
            t.taskId ∉ c1Sess.completedTaskIds → t ∈ r.taskPlan))) :=
  ⟨by decide, C1_load_session "S" "T" c1Sess (by decide)⟩

/-! ## C2: dynamic large-file threshold and classification -/

/-- C2.  For a non-empty scanned list with total size `T` and count `n`,
the threshold is `max (min ((T/n) * 10) (256 MiB)) (16 MiB)`, and a file is
classified as a `move_large` exactly when its size is at least the
threshold; all other files become pack candidates. -/
theorem C2_threshold_classification (files : List FileEntry)
    (hne : files ≠ []) :
    largeFileThreshold files =
      max (min ((((files.map FileEntry.size).sum : ℚ) /
          (files.length : ℚ)) * 10) (256 * 2 ^ 20)) (16 * 2 ^ 20) ∧
    (scanClassify files).1 =
      files.filter (fun f => decide (largeFileThreshold files ≤ (f.size : ℚ))) ∧
    (scanClassify files).2 =
      files.filter (fun f => decide (¬ largeFileThreshold files ≤ (f.size : ℚ))) ∧
    (∀ f, f ∈ (scanClassify files).1 ↔
      f ∈ files ∧ largeFileThreshold files ≤ (f.size : ℚ)) ∧
    (∀ f, f ∈ (scanClassify files).2 ↔
      f ∈ files ∧ ((f.size : ℚ) < largeFileThreshold files)) := by
  have hsplit := scanClassify_fold
    (fun f => largeFileThreshold files ≤ (f.size : ℚ)) files [] []
  have h1 : (scanClassify files).1 =
      files.filter (fun f => decide (largeFileThreshold files ≤ (f.size : ℚ))) := by
    simp only [scanClassify, hsplit, List.nil_append]
  have h2 : (scanClassify files).2 =
      files.filter (fun f => decide (¬ largeFileThreshold files ≤ (f.size : ℚ))) := by
    simp only [scanClassify, hsplit, List.nil_append]
  refine ⟨?_, h1, h2, ?_, ?_⟩
  · show max (min _ ((256 * MiB : Nat) : ℚ)) ((16 * MiB : Nat) : ℚ) = _
    norm_num [MiB]
  · intro f
    rw [h1]
    simp [List.mem_filter]
  · intro f
    rw [h2]
    simp [List.mem_filter, not_le]

/-- Witness for C2 on a two-file scan (sizes 1 byte and 400 MiB). -/
theorem C2_threshold_classification_witness :
    ([(⟨"s", 1⟩ : FileEntry), ⟨"b", 419430400⟩] ≠ []) ∧
    (largeFileThreshold [(⟨"s", 1⟩ : FileEntry), ⟨"b", 419430400⟩] =
      max (min ((((([(⟨"s", 1⟩ : FileEntry), ⟨"b", 419430400⟩].map
            FileEntry.size).sum : ℚ)) /
          (([(⟨"s", 1⟩ : FileEntry), ⟨"b", 419430400⟩].length : ℚ))) * 10)
        (256 * 2 ^ 20)) (16 * 2 ^ 20) ∧
    (scanClassify [(⟨"s", 1⟩ : FileEntry), ⟨"b", 419430400⟩]).1 =
      [(⟨"s", 1⟩ : FileEntry), ⟨"b", 419430400⟩].filter
        (fun f => decide (largeFileThreshold
          [(⟨"s", 1⟩ : FileEntry), ⟨"b", 419430400⟩] ≤ (f.size : ℚ))) ∧
    (scanClassify [(⟨"s", 1⟩ : FileEntry), ⟨"b", 419430400⟩]).2 =
      [(⟨"s", 1⟩ : FileEntry), ⟨"b", 419430400⟩].filter
        (fun f => decide (¬ largeFileThreshold
          [(⟨"s", 1⟩ : FileEntry), ⟨"b", 419430400⟩] ≤ (f.size : ℚ))) ∧
    (∀ f, f ∈ (scanClassify [(⟨"s", 1⟩ : FileEntry), ⟨"b", 419430400⟩]).1 ↔
      f ∈ [(⟨"s", 1⟩ : FileEntry), ⟨"b", 419430400⟩] ∧
        largeFileThreshold [(⟨"s", 1⟩ : FileEntry), ⟨"b", 419430400⟩] ≤
          (f.size : ℚ)) ∧
    (∀ f, f ∈ (scanClassify [(⟨"s", 1⟩ : FileEntry), ⟨"b", 419430400⟩]).2 ↔
      f ∈ [(⟨"s", 1⟩ : FileEntry), ⟨"b", 419430400⟩] ∧
        ((f.size : ℚ) < largeFileThreshold
          [(⟨"s", 1⟩ : FileEntry), ⟨"b", 419430400⟩]))) :=
  ⟨by decide, C2_threshold_classification
    [(⟨"s", 1⟩ : FileEntry), ⟨"b", 419430400⟩] (by decide)⟩

/-! ## C3: balanced chunking -/

/-- Python's `(n + w - 1) // w` is the rational ceiling of `n / w`. -/
lemma nat_ceil_div (n w : Nat) (hw : 0 < w) :
    (((n + w - 1) / w : Nat) : ℤ) = ⌈(n : ℚ) / (w : ℚ)⌉ := by
  have hw' : (0 : ℚ) < (w : ℚ) := by exact_mod_cast hw
  rw [eq_comm, Int.ceil_eq_iff]
  have hcast : ((((n + w - 1) / w : Nat) : ℤ) : ℚ) = (((n + w - 1) / w : Nat) : ℚ) :=
    Int.cast_natCast _
  constructor
  · rw [hcast, lt_div_iff₀ hw']
    have hnat : ((n + w - 1) / w) * w < n + w := by
      have h1 : ((n + w - 1) / w) * w ≤ n + w - 1 := Nat.div_mul_le_self (n + w - 1) w
      omega
    have hq : (((n + w - 1) / w : Nat) : ℚ) * w < (n : ℚ) + w := by
      exact_mod_cast hnat
    nlinarith [hq]
  · rw [hcast, div_le_iff₀ hw']
    have hmod := Nat.div_add_mod (n + w - 1) w
    have hlt : (n + w - 1) % w < w := Nat.mod_lt _ hw
    have hnat : n ≤ ((n + w - 1) / w) * w := by
      rw [Nat.mul_comm]
      generalize hgen : w * ((n + w - 1) / w) = t at hmod ⊢
      omega
    exact_mod_cast hnat

/-- Every chunking step leaves a non-empty current chunk. -/
lemma packStep_cur_ne (ideal limit : Nat) (st : PackPlanState)
    (f : FileEntry) : (packStep ideal limit st f).cur ≠ [] := by
  unfold packStep
  by_cases h : st.cur ≠ [] ∧ (ideal ≤ st.cur.length ∨ limit < st.curSize + f.size)
  · simp [h]
  · simp [h]

/-- A non-empty current chunk survives the rest of the fold. -/
lemma foldl_packStep_cur_ne (ideal limit : Nat) (rest : List FileEntry) :
    ∀ st : PackPlanState, st.cur ≠ [] →
      (rest.foldl (packStep ideal limit) st).cur ≠ [] := by
  induction rest with
  | nil => intro st h; exact h
  | cons f r ih =>
    intro st _
    exact ih _ (packStep_cur_ne ideal limit st f)

/-- A non-empty small-file list yields at least one pack. -/
lemma planPacks_ne_nil (ideal limit : Nat) (L : List FileEntry)
    (hL : L ≠ []) : planPacks ideal limit L ≠ [] := by
  match L, hL with
  | f :: rest, _ =>
    unfold planPacks
    have hcur := foldl_packStep_cur_ne ideal limit rest
      (packStep ideal limit ⟨[], [], 0, 0⟩ f) (packStep_cur_ne ideal limit _ f)
    simp only [List.foldl_cons]
    rw [if_pos hcur]
    simp

/-- The pack-id counter equals the number of sealed packs and the ids so
far are `1..count`; both are preserved by the chunking fold. -/
lemma packStep_ids_invariant (ideal limit : Nat) (L : List FileEntry) :
    ∀ st : PackPlanState,
      st.counter = st.packs.length →
      st.packs.map Prod.fst = List.range' 1 st.packs.length →
      (L.foldl (packStep ideal limit) st).counter =
          (L.foldl (packStep ideal limit) st).packs.length ∧
        (L.foldl (packStep ideal limit) st).packs.map Prod.fst =
          List.range' 1 (L.foldl (packStep ideal limit) st).packs.length := by
  induction L with
  | nil => intro st h1 h2; exact ⟨h1, h2⟩
  | cons f rest ih =>
    intro st h1 h2
    simp only [List.foldl_cons]
    by_cases h : st.cur ≠ [] ∧ (ideal ≤ st.cur.length ∨ limit < st.curSize + f.size)
    · refine ih _ ?_ ?_
      · simp [packStep, h, h1]
      · simp only [packStep, if_pos h, List.map_append, List.length_append,
          List.map_cons, List.map_nil, List.length_cons, List.length_nil]
        rw [h2, h1, List.range'_concat]
        simp [Nat.add_comm]
    · refine ih _ ?_ ?_
      · simp [packStep, h, h1]
      · simp [packStep, h, h2]

/-- C3.  `ideal_files_per_pack` is `⌈|L| / W⌉` for a positive worker count
and non-empty list, and `chunk_file_limit` otherwise; the produced pack ids
are the dense sequence `1..N`; and a chunking step seals the current chunk
exactly when it is non-empty and either already holds `ideal` files or the
next file would push its byte total over `limit`. -/
theorem C3_balanced_chunking (W : Int) (cfl : Nat) (L : List FileEntry)
    (ideal limit : Nat) :
    (0 < W → L ≠ [] →
      ((idealFilesPerPack W cfl L : ℤ) = ⌈(L.length : ℚ) / (W : ℚ)⌉)) ∧
    ((W ≤ 0 ∨ L = []) → idealFilesPerPack W cfl L = cfl) ∧
    ((planPacks ideal limit L).map Prod.fst =
      List.range' 1 (planPacks ideal limit L).length) ∧
    (∀ st f, (packStep ideal limit st f).packs ≠ st.packs ↔
      (st.cur ≠ [] ∧ (ideal ≤ st.cur.length ∨ limit < st.curSize + f.size))) := by
  refine ⟨?_, ?_, ?_, ?_⟩
  · intro hW hL
    have hw : 0 < W.toNat := by omega
    unfold idealFilesPerPack
    rw [if_pos ⟨hW, hL⟩]
    rw [nat_ceil_div L.length W.toNat hw]
    have hcast : ((W.toNat : ℕ) : ℚ) = ((W : ℤ) : ℚ) := by
      rw [← Int.cast_natCast, Int.toNat_of_nonneg (le_of_lt hW)]
    rw [hcast]
  · intro h
    unfold idealFilesPerPack
    rw [if_neg]
    push_neg
    intro hW
    rcases h with h | h
    · omega
    · exact h
  · unfold planPacks
    have hinv := packStep_ids_invariant ideal limit L ⟨[], [], 0, 0⟩ rfl rfl
    by_cases hcur : (L.foldl (packStep ideal limit) ⟨[], [], 0, 0⟩).cur ≠ []
    · rw [if_pos hcur]
      simp only [List.map_append, List.length_append, List.map_cons,
        List.map_nil, List.length_cons, List.length_nil]
      rw [hinv.2, hinv.1, List.range'_concat]
      simp [Nat.add_comm]
    · rw [if_neg hcur]
      exact hinv.2
  · intro st f
    constructor
    · intro hne
      by_contra h
      apply hne
      simp [packStep, h]
    · intro h
      simp only [packStep, if_pos h]
      intro heq
      have := congrArg List.length heq
      simp at this

/-- Witness for C3: two workers, three files, byte limit 10. -/
theorem C3_balanced_chunking_witness :
    (0 < (2 : Int)) ∧ ([(⟨"x", 3⟩ : FileEntry), ⟨"y", 4⟩, ⟨"z", 9⟩] ≠ []) ∧
    ((0 < (2 : Int) → [(⟨"x", 3⟩ : FileEntry), ⟨"y", 4⟩, ⟨"z", 9⟩] ≠ [] →
      ((idealFilesPerPack 2 20000 [(⟨"x", 3⟩ : FileEntry), ⟨"y", 4⟩, ⟨"z", 9⟩] : ℤ) =
        ⌈(([(⟨"x", 3⟩ : FileEntry), ⟨"y", 4⟩, ⟨"z", 9⟩].length : ℚ)) / ((2 : Int) : ℚ)⌉)) ∧
    (((2 : Int) ≤ 0 ∨ [(⟨"x", 3⟩ : FileEntry), ⟨"y", 4⟩, ⟨"z", 9⟩] = []) →
      idealFilesPerPack 2 20000 [(⟨"x", 3⟩ : FileEntry), ⟨"y", 4⟩, ⟨"z", 9⟩] = 20000) ∧
    ((planPacks 2 10 [(⟨"x", 3⟩ : FileEntry), ⟨"y", 4⟩, ⟨"z", 9⟩]).map Prod.fst =
      List.range' 1 (planPacks 2 10 [(⟨"x", 3⟩ : FileEntry), ⟨"y", 4⟩, ⟨"z", 9⟩]).length) ∧
    (∀ st f, (packStep 2 10 st f).packs ≠ st.packs ↔
      (st.cur ≠ [] ∧ (2 ≤ st.cur.length ∨ 10 < st.curSize + f.size)))) :=
  ⟨by decide, by decide,
    C3_balanced_chunking 2 20000 [(⟨"x", 3⟩ : FileEntry), ⟨"y", 4⟩, ⟨"z", 9⟩] 2 10⟩

/-! ## C10: pack content invariants -/

/-- The invariant each sealed chunk satisfies: non-empty, and over the byte
limit only as a singleton. -/
def goodChunk (limit : Nat) (c : List FileEntry) : Prop :=
  c ≠ [] ∧ (2 ≤ c.length → (c.map FileEntry.size).sum ≤ limit)

/-- The chunking fold preserves: all sealed packs are good, the tracked
size matches the current chunk, and a multi-file current chunk is within
the byte limit. -/
lemma packStep_good_invariant (ideal limit : Nat) (L : List FileEntry) :
    ∀ st : PackPlanState,
      (∀ q ∈ st.packs, goodChunk limit q.2) →
      st.curSize = (st.cur.map FileEntry.size).sum →
      (st.cur ≠ [] → 2 ≤ st.cur.length → st.curSize ≤ limit) →
      (∀ q ∈ (L.foldl (packStep ideal limit) st).packs,
          goodChunk limit q.2) ∧
        (L.foldl (packStep ideal limit) st).curSize =
          (((L.foldl (packStep ideal limit) st).cur.map FileEntry.size).sum) ∧
        ((L.foldl (packStep ideal limit) st).cur ≠ [] →
          2 ≤ (L.foldl (packStep ideal limit) st).cur.length →
          (L.foldl (packStep ideal limit) st).curSize ≤ limit) := by
  induction L with
  | nil => intro st h1 h2 h3; exact ⟨h1, h2, h3⟩
  | cons f rest ih =>
    intro st h1 h2 h3
    simp only [List.foldl_cons]
    by_cases h : st.cur ≠ [] ∧ (ideal ≤ st.cur.length ∨ limit < st.curSize + f.size)
    · refine ih _ ?_ ?_ ?_
      · intro q hq
        simp only [packStep, if_pos h, List.mem_append, List.mem_singleton] at hq
        rcases hq with hq | hq
        · exact h1 q hq
        · subst hq
          exact ⟨h.1, fun hlen => h2 ▸ h3 h.1 hlen⟩
      · simp [packStep, h]
      · simp only [packStep, if_pos h]
        intro _ hlen
        simp at hlen
    · refine ih _ ?_ ?_ ?_
      · intro q hq
        simp only [packStep, if_neg h] at hq
        exact h1 q hq
      · simp only [packStep, if_neg h]
        simp [h2]
      · simp only [packStep, if_neg h]
        intro _ hlen
        by_cases hcur : st.cur = []
        · rw [hcur] at hlen
          simp at hlen
        · push_neg at h
          exact (h hcur).2

/-- C10.  Every planner pack holds at least one file; a pack over the byte
limit is a singleton; a pack with two or more files is within the byte
limit. -/
theorem C10_pack_invariants (ideal limit : Nat) (smalls : List FileEntry)
    (p : Nat × List FileEntry) (hp : p ∈ planPacks ideal limit smalls) :
    p.2 ≠ [] ∧
    (limit < (p.2.map FileEntry.size).sum → p.2.length = 1) ∧
    (2 ≤ p.2.length → (p.2.map FileEntry.size).sum ≤ limit) := by
  have hinv := packStep_good_invariant ideal limit smalls ⟨[], [], 0, 0⟩
    (by intro q hq; simp at hq) (by simp) (by intro h; simp at h)
  have hgood : goodChunk limit p.2 := by
    unfold planPacks at hp
    by_cases hcur : (smalls.foldl (packStep ideal limit) ⟨[], [], 0, 0⟩).cur ≠ []
    · rw [if_pos hcur] at hp
      rcases List.mem_append.1 hp with hmem | hmem
      · exact hinv.1 p hmem
      · simp only [List.mem_singleton] at hmem
        subst hmem
        exact ⟨hcur, fun hlen => hinv.2.1 ▸ hinv.2.2 hcur hlen⟩
    · rw [if_neg hcur] at hp
      exact hinv.1 p hp
  refine ⟨hgood.1, ?_, hgood.2⟩
  intro hover
  by_contra hlen
  have h1 : 1 ≤ p.2.length := List.length_pos.2 hgood.1
  have h2 : 2 ≤ p.2.length := by omega
  exact absurd (hgood.2 h2) (not_le.2 hover)

/-- Witness for C10: the oversized single file 9 forms its own pack. -/
theorem C10_pack_invariants_witness :
    ((1, [(⟨"z", 9⟩ : FileEntry)]) ∈
        planPacks 2 5 [(⟨"z", 9⟩ : FileEntry), ⟨"x", 1⟩]) ∧
    ([(⟨"z", 9⟩ : FileEntry)] ≠ [] ∧
      (5 < (([(⟨"z", 9⟩ : FileEntry)].map FileEntry.size).sum) →
        [(⟨"z", 9⟩ : FileEntry)].length = 1) ∧
      (2 ≤ [(⟨"z", 9⟩ : FileEntry)].length →
        (([(⟨"z", 9⟩ : FileEntry)].map FileEntry.size).sum) ≤ 5)) :=
  ⟨by decide, C10_pack_invariants 2 5 [(⟨"z", 9⟩ : FileEntry), ⟨"x", 1⟩]
    (1, [(⟨"z", 9⟩ : FileEntry)]) (by decide)⟩

/-! ## C4: recovery planning and submission order -/

/-- The post-state property C4 tracks through the recovery fold. -/
def recoveryDone (orig : Task) (st : List Task × List Task) : Prop :=
  orig.toResumeExtract ∈ st.1 ∧ ∀ t ∈ st.2, t.taskId ≠ orig.taskId

/-- `packIdToTask` only ever returns a pack task carrying the looked-up
pack id. -/
lemma packIdToTask_shape (fullPlan : List Task) (pid : Nat) (orig : Task)
    (h : packIdToTask fullPlan pid = some orig) :
    ∃ tid fs, orig = Task.pack tid pid fs := by
  unfold packIdToTask at h
  suffices hgen : ∀ (l : List Task) (acc),
      (acc = none ∨ ∃ tid fs, acc = some (Task.pack tid pid fs)) →
      (l.foldl
        (fun acc t =>
          match t with
          | .pack _ p _ => if p = pid then some t else acc
          | _ => acc) acc) = some orig →
      ∃ tid fs, orig = Task.pack tid pid fs by
    exact hgen fullPlan none (Or.inl rfl) h
  intro l
  induction l with
  | nil =>
    intro acc hacc hres
    simp only [List.foldl_nil] at hres
    rcases hacc with hacc | ⟨tid, fs, hacc⟩
    · rw [hacc] at hres; exact absurd hres (by simp)
    · rw [hacc] at hres
      exact ⟨tid, fs, (Option.some_injective _ hres).symm⟩
  | cons t rest ih =>
    intro acc hacc hres
    simp only [List.foldl_cons] at hres
    refine ih _ ?_ hres
    cases t with
    | pack tid' p fs =>
      by_cases hp : p = pid
      · subst hp
        exact Or.inr ⟨tid', fs, by simp⟩
      · simpa [hp] using hacc
    | moveLarge tid' f' => simpa using hacc
    | resumeExtract tid' p fs => simpa using hacc

/-- Once established, `recoveryDone` survives any further recovery step. -/
lemma recoveryStep_preserves (fullPlan : List Task) (completed : List String)
    (orig : Task) (entry : Option Nat) (st : List Task × List Task)
    (h : recoveryDone orig st) :
    recoveryDone orig (recoveryStep fullPlan completed st entry) := by
  rcases entry with _ | pid
  · exact h
  · simp only [recoveryStep]
    cases hpt : packIdToTask fullPlan pid with
    | none => exact h
    | some o =>
      by_cases hc : o.taskId ∈ completed
      · simp only [if_pos hc]
        exact h
      · simp only [if_neg hc]
        refine ⟨List.mem_append_left _ h.1, ?_⟩
        intro t ht
        exact h.2 t (List.mem_of_mem_filter ht)

/-- Processing the matching cache entry establishes `recoveryDone`. -/
lemma recoveryStep_establishes (fullPlan : List Task)
    (completed : List String) (pid : Nat) (orig : Task)
    (st : List Task × List Task)
    (horig : packIdToTask fullPlan pid = some orig)
    (hnc : orig.taskId ∉ completed) :
    recoveryDone orig (recoveryStep fullPlan completed st (some pid)) := by
  simp only [recoveryStep]
  rw [horig]
  simp only [if_neg hnc]
  refine ⟨List.mem_append_right _ (List.mem_singleton.2 rfl), ?_⟩
  intro t ht
  have := (List.mem_filter.1 ht).2
  simpa using this

/-- `recoveryDone` survives folding any further entries. -/
lemma recoveryFold_preserves (fullPlan : List Task) (completed : List String)
    (orig : Task) (entries : List (Option Nat)) :
    ∀ st, recoveryDone orig st →
      recoveryDone orig
        (entries.foldl (recoveryStep fullPlan completed) st) := by
  induction entries with
  | nil => intro st h; exact h
  | cons e rest ih =>
    intro st h
    exact ih _ (recoveryStep_preserves fullPlan completed orig e st h)

/-- Folding a cache listing that mentions the incomplete pack's archive
establishes `recoveryDone` no matter where the entry sits. -/
lemma recoveryFold_done (fullPlan : List Task) (completed : List String)
    (pid : Nat) (orig : Task)
    (horig : packIdToTask fullPlan pid = some orig)
    (hnc : orig.taskId ∉ completed) :
    ∀ (entries : List (Option Nat)) (st : List Task × List Task),
      some pid ∈ entries →
      recoveryDone orig
        (entries.foldl (recoveryStep fullPlan completed) st) := by
  intro entries
  induction entries with
  | nil => intro st h; simp at h
  | cons e rest ih =>
    intro st hmem
    simp only [List.foldl_cons]
    rcases List.mem_cons.1 hmem with he | hrest
    · rw [← he]
      exact recoveryFold_preserves fullPlan completed orig rest _
        (recoveryStep_establishes fullPlan completed pid orig st horig hnc)
    · exact ih _ hrest

/-- C4.  A stored incomplete pack whose archive is present in the cache is
converted to a `resume_extract` with the same task id and pack id, removed
from the active plan, and all recovery tasks precede all fresh tasks in the
submission order. -/
theorem C4_recovery_priority (fullPlan : List Task) (completed : List String)
    (entries : List (Option Nat)) (activePlan : List Task)
    (pid : Nat) (orig : Task)
    (hmem : some pid ∈ entries)
    (horig : packIdToTask fullPlan pid = some orig)
    (hnc : orig.taskId ∉ completed) :
    (∃ tid fs, orig = Task.pack tid pid fs ∧
      orig.toResumeExtract = Task.resumeExtract tid pid fs) ∧
    orig.toResumeExtract ∈
      (planRecoveryTasks fullPlan completed entries activePlan).1 ∧
    (∀ t ∈ (planRecoveryTasks fullPlan completed entries activePlan).2,
      t.taskId ≠ orig.taskId) ∧
    executionOrder (planRecoveryTasks fullPlan completed entries activePlan).1
        (planRecoveryTasks fullPlan completed entries activePlan).2 =
      (planRecoveryTasks fullPlan completed entries activePlan).1 ++
        (planRecoveryTasks fullPlan completed entries activePlan).2 := by
  have hdone : recoveryDone orig
      (planRecoveryTasks fullPlan completed entries activePlan) :=
    recoveryFold_done fullPlan completed pid orig horig hnc entries
      ([], activePlan) hmem
  obtain ⟨tid, fs, hshape⟩ := packIdToTask_shape fullPlan pid orig horig
  refine ⟨⟨tid, fs, hshape, by rw [hshape]; rfl⟩, hdone.1, hdone.2, rfl⟩

/-- Concrete stored plan for the C4 witness. -/
def c4Plan : List Task :=
  [Task.pack "a" 1 [⟨"f1", 5⟩], Task.pack "b" 2 [⟨"f2", 7⟩]]

/-- The incomplete pack of the C4 witness, whose archive `pack_2.7z` is
present in the cache listing. -/
def c4Orig : Task := Task.pack "b" 2 [⟨"f2", 7⟩]

/-- Witness for C4: pack 2 is incomplete and its archive is cached. -/
theorem C4_recovery_priority_witness :
    (some 2 ∈ [some 2, (none : Option Nat)]) ∧
    (packIdToTask c4Plan 2 = some c4Orig) ∧
    (c4Orig.taskId ∉ ["a"]) ∧
    ((∃ tid fs, c4Orig = Task.pack tid 2 fs ∧
        c4Orig.toResumeExtract = Task.resumeExtract tid 2 fs) ∧
      c4Orig.toResumeExtract ∈
        (planRecoveryTasks c4Plan ["a"] [some 2, none] [c4Orig]).1 ∧
      (∀ t ∈ (planRecoveryTasks c4Plan ["a"] [some 2, none] [c4Orig]).2,
        t.taskId ≠ c4Orig.taskId) ∧
      executionOrder (planRecoveryTasks c4Plan ["a"] [some 2, none] [c4Orig]).1
          (planRecoveryTasks c4Plan ["a"] [some 2, none] [c4Orig]).2 =
        (planRecoveryTasks c4Plan ["a"] [some 2, none] [c4Orig]).1 ++
          (planRecoveryTasks c4Plan ["a"] [some 2, none] [c4Orig]).2) :=
  ⟨by decide, by decide, by decide,
    C4_recovery_priority c4Plan ["a"] [some 2, none] [c4Orig] 2 c4Orig
      (by decide) (by decide) (by decide)⟩

/-! ## Progress lemmas -/

/-- `_update_progress` always adds the task size to the counter, whether or
not the call reports, fails, or raises. -/
lemma updateProgress_processedSize (total p : Nat) (l : Int) (sz : Nat)
    (failed : Bool) :
    (updateProgress total p l sz failed).processedSize = p + sz := by
  simp only [updateProgress]
  split_ifs <;> rfl

/-- With a non-zero total, `_update_progress` does not raise and emits at
most the single current percentage. -/
lemma updateProgress_spec (total p : Nat) (l : Int) (sz : Nat)
    (failed : Bool) (htot : total ≠ 0) :
    (updateProgress total p l sz failed).raised = false ∧
    ((updateProgress total p l sz failed).emitted = [] ∨
      (updateProgress total p l sz failed).emitted =
        [((p + sz : Nat) : ℚ) / (total : ℚ) * 100]) := by
  simp only [updateProgress, if_neg htot]
  cases failed
  · by_cases hl : l < ⌊((p + sz : Nat) : ℚ) / (total : ℚ) * 100⌋
    · rw [if_pos hl]
      simp
    · rw [if_neg hl]
      simp
  · simp

/-- Sublists have smaller sums over `ℕ`. -/
lemma sublist_sum_le (l₁ l₂ : List Nat) (h : l₁.Sublist l₂) :
    l₁.sum ≤ l₂.sum := by
  induction h with
  | slnil => simp
  | cons a _ ih => simp only [List.sum_cons]; omega
  | cons₂ a _ ih => simp only [List.sum_cons]; omega

/-- Core invariant of the progress aggregator: starting from `p` processed
bytes with the remaining credits fitting inside `total`, every emitted
percentage lies between the current percentage and `100`, and the emission
sequence is non-decreasing. -/
lemma runProgress_bounds (total : Nat) (htot : total ≠ 0)
    (credits : List (Task × Bool)) :
    ∀ (p : Nat) (l : Int),
      p + (credits.map (fun c => c.1.size)).sum ≤ total →
      List.Pairwise (· ≤ ·) (runProgress total credits p l).emitted ∧
      (∀ x ∈ (runProgress total credits p l).emitted,
        (p : ℚ) / (total : ℚ) * 100 ≤ x ∧ x ≤ 100) := by
  have htotq : (0 : ℚ) < (total : ℚ) := by
    have : 0 < total := Nat.pos_of_ne_zero htot
    exact_mod_cast this
  induction credits with
  | nil =>
    intro p l _
    simp [runProgress]
  | cons c rest ih =>
    intro p l hsum
    obtain ⟨t, failed⟩ := c
    simp only [List.map_cons, List.sum_cons] at hsum
    have hps := updateProgress_processedSize total p l t.size failed
    obtain ⟨-, hem⟩ := updateProgress_spec total p l t.size failed htot
    have hih := ih (p + t.size)
      (updateProgress total p l t.size failed).lastReported (by omega)
    have hple : ((p + t.size : Nat) : ℚ) ≤ (total : ℚ) := by
      have hn : p + t.size ≤ total := by omega
      exact_mod_cast hn
    have hq100 : ((p + t.size : Nat) : ℚ) / (total : ℚ) * 100 ≤ 100 := by
      have h1 : ((p + t.size : Nat) : ℚ) / (total : ℚ) ≤ 1 :=
        (div_le_one htotq).2 hple
      have h2 := mul_le_mul_of_nonneg_right h1
        (by norm_num : (0 : ℚ) ≤ 100)
      simpa using h2
    have hmono : (p : ℚ) / (total : ℚ) * 100 ≤
        ((p + t.size : Nat) : ℚ) / (total : ℚ) * 100 := by
      have hnum : (p : ℚ) ≤ ((p + t.size : Nat) : ℚ) := by
        have : p ≤ p + t.size := Nat.le_add_right _ _
        exact_mod_cast this
      gcongr
    simp only [runProgress]
    rw [hps]
    rcases hem with hnil | hone
    · rw [hnil]
      simp only [List.nil_append]
      refine ⟨hih.1, ?_⟩
      intro x hx
      exact ⟨le_trans hmono (hih.2 x hx).1, (hih.2 x hx).2⟩
    · rw [hone]
      simp only [List.singleton_append]
      constructor
      · refine List.pairwise_cons.2 ⟨?_, hih.1⟩
        intro x hx
        exact (hih.2 x hx).1
      · intro x hx
        rcases List.mem_cons.1 hx with hx | hx
        · subst hx
          exact ⟨hmono, hq100⟩
        · exact ⟨le_trans hmono (hih.2 x hx).1, (hih.2 x hx).2⟩

/-! ## C5: task-failure policy -/

/-- C5.  A task whose main or cleanup phase raises never has its task id
enqueued for the completed set, is still credited its byte size, and leaves
the stop event — the only trigger for cancelling sibling futures —
untouched. -/
theorem C5_failure_policy (total : Nat) (st : CbState) (t : Task)
    (e : String) :
    ((mainTaskDoneCallback total st t (.error e)).completedQueue =
        st.completedQueue ∧
      (mainTaskDoneCallback total st t (.error e)).processedSize =
        st.processedSize + t.size ∧
      (mainTaskDoneCallback total st t (.error e)).stopSet = st.stopSet) ∧
    ((finalCleanupCallback total st t (.error e)).completedQueue =
        st.completedQueue ∧
      (finalCleanupCallback total st t (.error e)).processedSize =
        st.processedSize + t.size ∧
      (finalCleanupCallback total st t (.error e)).stopSet = st.stopSet) ∧
    ((cleanupTaskDoneCallback total st t (.error e)).completedQueue =
        st.completedQueue ∧
      (cleanupTaskDoneCallback total st t (.error e)).processedSize =
        st.processedSize + t.size ∧
      (cleanupTaskDoneCallback total st t (.error e)).stopSet = st.stopSet) ∧
    (pendingFuturesCancelled
        (mainTaskDoneCallback total st t (.error e)).stopSet =
      pendingFuturesCancelled st.stopSet) := by
  have hfail : ∀ s : CbState,
      (failCredit total s t).completedQueue = s.completedQueue ∧
      (failCredit total s t).processedSize = s.processedSize + t.size ∧
      (failCredit total s t).stopSet = s.stopSet := by
    intro s
    refine ⟨rfl, ?_, rfl⟩
    simp [failCredit, updateProgress_processedSize]
  exact ⟨hfail st, hfail st, hfail st, rfl⟩

/-! ## C6: progress monotonicity -/

/-- C6.  Within one run — each task credited at most once, the plan's sizes
summing to the total — the percentages handed to the status callback are
non-decreasing and never exceed 100. -/
theorem C6_progress_monotone (total : Nat) (tasks : List Task)
    (credits : List (Task × Bool)) (l0 : Int)
    (htot : total ≠ 0)
    (hsub : (credits.map Prod.fst).Subperm tasks)
    (hsum : (tasks.map Task.size).sum = total) :
    List.Pairwise (· ≤ ·) (runProgress total credits 0 l0).emitted ∧
    ∀ x ∈ (runProgress total credits 0 l0).emitted, x ≤ 100 := by
  obtain ⟨mid, hperm, hsl⟩ := hsub
  have hpermMap : (mid.map Task.size).Perm
      ((credits.map Prod.fst).map Task.size) := hperm.map _
  have hslMap : (mid.map Task.size).Sublist (tasks.map Task.size) :=
    hsl.map _
  have hsumle : (credits.map (fun c => c.1.size)).sum ≤ total := by
    calc (credits.map (fun c => c.1.size)).sum
        = ((credits.map Prod.fst).map Task.size).sum := by
          rw [List.map_map]
          rfl
      _ = (mid.map Task.size).sum := (hpermMap.sum_eq).symm
      _ ≤ (tasks.map Task.size).sum := sublist_sum_le _ _ hslMap
      _ = total := hsum
  have hb := runProgress_bounds total htot credits 0 l0 (by omega)
  exact ⟨hb.1, fun x hx => (hb.2 x hx).2⟩

/-- Witness for C6: two credits over a 10-byte total. -/
theorem C6_progress_monotone_witness :
    ((10 : Nat) ≠ 0) ∧
    (([( Task.moveLarge "a" ⟨"f", 4⟩, false), (Task.moveLarge "b" ⟨"g", 6⟩, true)].map
        Prod.fst).Subperm
      [Task.moveLarge "a" ⟨"f", 4⟩, Task.moveLarge "b" ⟨"g", 6⟩]) ∧
    (([Task.moveLarge "a" ⟨"f", 4⟩, Task.moveLarge "b" ⟨"g", 6⟩].map
        Task.size).sum = 10) ∧
    (List.Pairwise (· ≤ ·)
        (runProgress 10
          [(Task.moveLarge "a" ⟨"f", 4⟩, false), (Task.moveLarge "b" ⟨"g", 6⟩, true)]
          0 (-1)).emitted ∧
      ∀ x ∈ (runProgress 10
          [(Task.moveLarge "a" ⟨"f", 4⟩, false), (Task.moveLarge "b" ⟨"g", 6⟩, true)]
          0 (-1)).emitted, x ≤ 100) :=
  ⟨by decide, List.Perm.subperm (by decide), by decide,
    C6_progress_monotone 10
      [Task.moveLarge "a" ⟨"f", 4⟩, Task.moveLarge "b" ⟨"g", 6⟩]
      [(Task.moveLarge "a" ⟨"f", 4⟩, false), (Task.moveLarge "b" ⟨"g", 6⟩, true)]
      (-1) (by decide) (List.Perm.subperm (by decide)) (by decide)⟩

/-! ## C9: zero-byte trees divide by zero -/

/-- With a zero total every progress credit raises and flags the failure
inside `successCredit`. -/
lemma successCredit_zero_total (st : CbState) (t : Task) :
    (successCredit 0 st t).transferFailed = true := by
  simp [successCredit, updateProgress]

/-- The `except` path always flags the failure. -/
lemma failCredit_transferFailed (total : Nat) (st : CbState) (t : Task) :
    (failCredit total st t).transferFailed = true := rfl

/-- C9.  A scan that finds files whose sizes sum to zero classifies them
all as pack candidates, produces at least one pack, and then every progress
update divides by zero; every chain-terminating completion callback flags
`_transfer_failed`, so the run never reaches the successful-teardown
branch. -/
theorem C9_zero_total_failure (files : List FileEntry)
    (hne : files ≠ []) (hzero : (files.map FileEntry.size).sum = 0) :
    (scanClassify files).2 = files ∧
    (∀ ideal limit, planPacks ideal limit files ≠ []) ∧
    (∀ (p : Nat) (l : Int) (sz : Nat) (failed : Bool),
      (updateProgress 0 p l sz failed).raised = true) ∧
    (∀ (st : CbState) (t : Task) (oc : Except String Unit),
      (finalCleanupCallback 0 st t oc).transferFailed = true) ∧
    (∀ (st : CbState) (t : Task) (oc : Except String Unit),
      (cleanupTaskDoneCallback 0 st t oc).transferFailed = true) ∧
    (∀ (st : CbState) (t : Task) (e : String),
      (mainTaskDoneCallback 0 st t (.error e)).transferFailed = true) ∧
    (∀ (st : CbState) (t : Task),
      (mainTaskDoneCallback 0 st t
        (.ok (.largeCleanup false))).transferFailed = true) ∧
    (∀ stopSet : Bool, teardownRuns stopSet true = false) := by
  have hthr : largeFileThreshold files = ((16 * MiB : Nat) : ℚ) := by
    unfold largeFileThreshold
    rw [hzero]
    show max (min ((((0 : Nat) : ℚ)) / (files.length : ℚ) * 10)
      ((256 * MiB : Nat) : ℚ)) ((16 * MiB : Nat) : ℚ) = ((16 * MiB : Nat) : ℚ)
    norm_num [MiB]
  have hall : ∀ f ∈ files, f.size = 0 := by
    intro f hf
    have := (List.sum_eq_zero_iff.1 hzero) f.size
      (List.mem_map_of_mem FileEntry.size hf)
    exact this
  refine ⟨?_, ?_, ?_, ?_, ?_, ?_, ?_, ?_⟩
  · have hsplit := scanClassify_fold
      (fun f => largeFileThreshold files ≤ (f.size : ℚ)) files [] []
    unfold scanClassify
    rw [hsplit]
    simp only [List.nil_append]
    rw [List.filter_eq_self]
    intro f hf
    rw [hthr, hall f hf]
    simp [MiB]
  · intro ideal limit
    exact planPacks_ne_nil ideal limit files hne
  · intro p l sz failed
    simp [updateProgress]
  · intro st t oc
    cases oc with
    | ok u => exact successCredit_zero_total st t
    | error e => exact failCredit_transferFailed 0 st t
  · intro st t oc
    cases oc with
    | ok u => exact successCredit_zero_total st t
    | error e => exact failCredit_transferFailed 0 st t
  · intro st t e
    exact failCredit_transferFailed 0 st t
  · intro st t
    exact successCredit_zero_total st t
  · intro stopSet
    simp [teardownRuns]

/-- Witness for C9: a single zero-byte file. -/
theorem C9_zero_total_failure_witness :
    ([(⟨"a", 0⟩ : FileEntry)] ≠ []) ∧
    (([(⟨"a", 0⟩ : FileEntry)].map FileEntry.size).sum = 0) ∧
    ((scanClassify [(⟨"a", 0⟩ : FileEntry)]).2 = [(⟨"a", 0⟩ : FileEntry)] ∧
      (∀ ideal limit, planPacks ideal limit [(⟨"a", 0⟩ : FileEntry)] ≠ []) ∧
      (∀ (p : Nat) (l : Int) (sz : Nat) (failed : Bool),
        (updateProgress 0 p l sz failed).raised = true) ∧
      (∀ (st : CbState) (t : Task) (oc : Except String Unit),
        (finalCleanupCallback 0 st t oc).transferFailed = true) ∧
      (∀ (st : CbState) (t : Task) (oc : Except String Unit),
        (cleanupTaskDoneCallback 0 st t oc).transferFailed = true) ∧
      (∀ (st : CbState) (t : Task) (e : String),
        (mainTaskDoneCallback 0 st t (.error e)).transferFailed = true) ∧
      (∀ (st : CbState) (t : Task),
        (mainTaskDoneCallback 0 st t
          (.ok (.largeCleanup false))).transferFailed = true) ∧
      (∀ stopSet : Bool, teardownRuns stopSet true = false)) :=
  ⟨by decide, by decide,
    C9_zero_total_failure [(⟨"a", 0⟩ : FileEntry)] (by decide) (by decide)⟩

/-! ## C7: supervisor retry/cancel behavior -/

/-- With the flag never set and every child timing out, the loop spawns and
kills one child per remaining iteration and re-raises the timeout. -/
lemma runCmdAux_all_timeout (stop : Nat → Bool) (outcome : Nat → CmdOutcome)
    (retries : Nat) (hstop : ∀ c, stop c = false)
    (htim : ∀ i, i < retries → outcome i = .timeout) :
    ∀ fuel i att kills, fuel + i = retries → 0 < fuel →
      runCmdAux stop outcome retries fuel i att kills =
        ⟨.timeoutRaised, att + fuel, kills + fuel⟩ := by
  intro fuel
  induction fuel with
  | zero =>
    intro i att kills _ h0
    exact absurd h0 (lt_irrefl 0)
  | succ f ih =>
    intro i att kills hsum h0
    have hi : i < retries := by omega
    simp only [runCmdAux, hstop, htim i hi, Bool.false_eq_true, if_false]
    by_cases hlast : i = retries - 1
    · have hf : f = 0 := by omega
      subst hf
      rw [if_pos hlast]
    · rw [if_neg hlast]
      have hrec := ih (i + 1) (att + 1) (kills + 1) (by omega) (by omega)
      rw [hrec]
      simp only [CmdRun.mk.injEq, true_and]
      omega

/-- With the flag never set, the first non-timeout child exits with a
non-zero code and the exception propagates at once: one spawn for each of
the `j` preceding timeouts plus the failing one, and no further retry. -/
lemma runCmdAux_exit (stop : Nat → Bool) (outcome : Nat → CmdOutcome)
    (retries : Nat) (hstop : ∀ c, stop c = false)
    (j : Nat) (code : Int) (hcode : code ≠ 0) (hj : j < retries)
    (hbefore : ∀ k, k < j → outcome k = .timeout)
    (hex : outcome j = .exit code) :
    ∀ fuel i att kills, fuel + i = retries → i ≤ j →
      runCmdAux stop outcome retries fuel i att kills =
        ⟨.nonZeroRaised code, att + (j - i) + 1, kills + (j - i)⟩ := by
  intro fuel
  induction fuel with
  | zero =>
    intro i att kills hsum hij
    omega
  | succ f ih =>
    intro i att kills hsum hij
    by_cases heq : i = j
    · subst heq
      simp only [runCmdAux, hstop, hex, Bool.false_eq_true, if_false,
        if_pos hcode]
      simp
    · have hlt : i < j := by omega
      have hi : i < retries := by omega
      simp only [runCmdAux, hstop, hbefore i hlt, Bool.false_eq_true,
        if_false]
      have hlast : i ≠ retries - 1 := by omega
      rw [if_neg hlast]
      have hrec := ih (i + 1) (att + 1) (kills + 1) (by omega) (by omega)
      rw [hrec]
      simp only [CmdRun.mk.injEq, true_and]
      omega

/-- C7.  The supervised archiver call retries only on timeout — killing the
child after each timed-out attempt and re-raising after `retries` attempts
— raises immediately on a non-zero child exit, and returns the cancelled
sentinel whenever a stop-flag observation comes back set. -/
theorem C7_supervisor_retry (stop : Nat → Bool) (outcome : Nat → CmdOutcome)
    (retries : Nat) :
    ((∀ c, stop c = false) → (∀ i, i < retries → outcome i = .timeout) →
      0 < retries →
      runCommandWithRetry stop outcome retries =
        ⟨.timeoutRaised, retries, retries⟩) ∧
    (∀ j code, (∀ c, stop c = false) → j < retries → code ≠ 0 →
      (∀ k, k < j → outcome k = .timeout) → outcome j = .exit code →
      runCommandWithRetry stop outcome retries =
        ⟨.nonZeroRaised code, j + 1, j⟩) ∧
    (∀ fuel i att kills, stop (2 * i) = true →
      runCmdAux stop outcome retries (fuel + 1) i att kills =
        ⟨.cancelled, att, kills⟩) ∧
    (∀ fuel i att kills, stop (2 * i) = false → stop (2 * i + 1) = true →
      (outcome i = .timeout →
        runCmdAux stop outcome retries (fuel + 1) i att kills =
          ⟨.cancelled, att + 1, kills + 1⟩) ∧
      (∀ code, outcome i = .exit code →
        runCmdAux stop outcome retries (fuel + 1) i att kills =
          ⟨.cancelled, att + 1, kills⟩)) := by
  refine ⟨?_, ?_, ?_, ?_⟩
  · intro hstop htim h0
    have h := runCmdAux_all_timeout stop outcome retries hstop htim
      retries 0 0 0 (by omega) h0
    simpa [runCommandWithRetry] using h
  · intro j code hstop hj hcode hbefore hex
    have h := runCmdAux_exit stop outcome retries hstop j code hcode hj
      hbefore hex retries 0 0 0 (by omega) (by omega)
    simpa [runCommandWithRetry] using h
  · intro fuel i att kills hset
    simp [runCmdAux, hset]
  · intro fuel i att kills hclear hset
    constructor
    · intro htim
      simp [runCmdAux, hclear, htim, hset]
    · intro code hex
      simp [runCmdAux, hclear, hex, hset]

/-- Witness for C7: three attempts, every child timing out, flag clear. -/
theorem C7_supervisor_retry_witness :
    (∀ c, (fun _ : Nat => false) c = false) ∧
    (∀ i, i < 3 → (fun _ : Nat => CmdOutcome.timeout) i = .timeout) ∧
    (0 < 3) ∧
    runCommandWithRetry (fun _ => false) (fun _ => CmdOutcome.timeout) 3 =
      ⟨.timeoutRaised, 3, 3⟩ :=
  ⟨fun _ => rfl, by decide, by decide,
    (C7_supervisor_retry (fun _ => false) (fun _ => CmdOutcome.timeout) 3).1
      (fun _ => rfl) (by decide) (by decide)⟩

/-! ## C8: filelist format -/

/-- Splitting at LF peels off a newline-free line. -/
lemma splitLinesLF_append (l rest : List Char) (h : '\n' ∉ l) :
    splitLinesLF (l ++ '\n' :: rest) = l :: splitLinesLF rest := by
  induction l with
  | nil => simp [splitLinesLF]
  | cons c cs ih =>
    have hc : ¬ (c = '\n') := by
      intro hc
      exact h (hc ▸ List.mem_cons_self c cs)
    have hcs : '\n' ∉ cs := fun hm => h (List.mem_cons_of_mem c hm)
    simp only [List.cons_append, splitLinesLF, if_neg hc, List.append_eq]
    rw [ih hcs]

/-- C8.  The emitted filelist is UTF-8, holds exactly one source-relative
path per line, and each line is terminated by a single LF. -/
theorem C8_filelist_format (relpath : String → String)
    (files : List FileEntry)
    (h : ∀ f ∈ files, '\n' ∉ (relpath f.path).data) :
    (writeFilelist relpath files).encoding = "utf-8" ∧
    splitLinesLF (writeFilelist relpath files).content =
      files.map (fun f => (relpath f.path).data) ++ [[]] ∧
    (writeFilelist relpath files).content.count '\n' = files.length := by
  refine ⟨rfl, ?_, ?_⟩
  · induction files with
    | nil => simp [writeFilelist, splitLinesLF]
    | cons f rest ih =>
      have hf : '\n' ∉ (relpath f.path).data := h f (List.mem_cons_self _ _)
      have hrest := ih fun g hg => h g (List.mem_cons_of_mem f hg)
      simp only [writeFilelist, List.map_cons, List.flatten_cons,
        List.append_assoc, List.singleton_append] at *
      rw [splitLinesLF_append _ _ hf, hrest]
      simp
  · induction files with
    | nil => simp [writeFilelist]
    | cons f rest ih =>
      have hf : '\n' ∉ (relpath f.path).data := h f (List.mem_cons_self _ _)
      have hrest := ih fun g hg => h g (List.mem_cons_of_mem f hg)
      simp only [writeFilelist, List.map_cons, List.flatten_cons,
        List.count_append] at *
      rw [hrest]
      have hzero : ((relpath f.path).data).count '\n' = 0 :=
        List.count_eq_zero.2 hf
      simp [hzero, List.count_singleton]
      omega

/-- Witness for C8 on two concrete relative paths. -/
theorem C8_filelist_format_witness :
    (∀ f ∈ [(⟨"a/b", 1⟩ : FileEntry), ⟨"c", 2⟩],
      '\n' ∉ ((fun s => s) f.path).data) ∧
    ((writeFilelist (fun s => s) [(⟨"a/b", 1⟩ : FileEntry), ⟨"c", 2⟩]).encoding =
        "utf-8" ∧
      splitLinesLF
          (writeFilelist (fun s => s)
            [(⟨"a/b", 1⟩ : FileEntry), ⟨"c", 2⟩]).content =
        [(⟨"a/b", 1⟩ : FileEntry), ⟨"c", 2⟩].map
          (fun f => ((fun s => s) f.path).data) ++ [[]] ∧
      (writeFilelist (fun s => s)
          [(⟨"a/b", 1⟩ : FileEntry), ⟨"c", 2⟩]).content.count '\n' =
        [(⟨"a/b", 1⟩ : FileEntry), ⟨"c", 2⟩].length) :=
  ⟨by decide, C8_filelist_format (fun s => s)
    [(⟨"a/b", 1⟩ : FileEntry), ⟨"c", 2⟩] (by decide)⟩

end FastTransfer
